import Mathlib

set_option maxRecDepth 10000

/-!
Verification of the TaskFlow to-do list application (`script.js`) against its
natural-language specification.  The JavaScript source is shallowly embedded:
each handler becomes a pure Lean function on an explicit application state,
platform string primitives (`trim`, `substring`, `JSON.parse`) are modelled
char-wise so that every definition is executable by the kernel.
All definitions live in the `TaskFlow` namespace (the application's own name
for itself), since `Task` is taken by the Lean core library.
-/

namespace TaskFlow

/-- A task record, as built at `script.js:98-103`:
`id` from `Date.now()` (a millisecond timestamp, modelled as `Nat`),
`text` the trimmed input, `completed` initially false, `createdAt` a
human-readable timestamp string. -/
structure Task where
  id : Nat
  text : String
  completed : Bool
  createdAt : String
deriving DecidableEq

/-- A JSON value.  Numbers are modelled as integers, which covers every value
the application itself ever serializes (ids, strings, booleans). -/
inductive Json where
  | null
  | bool (b : Bool)
  | num (n : Int)
  | str (s : String)
  | arr (xs : List Json)
  | obj (fields : List (String × Json))

/-- JavaScript truthiness of a JSON value, used by the `|| []` fallback on
`script.js:10`: `null`, `false`, `0` and `""` are falsy, everything else
(including every array and object) is truthy. -/
def Json.truthy : Json → Bool
  | .null => false
  | .bool b => b
  | .num n => n != 0
  | .str s => s != ""
  | .arr _ => true
  | .obj _ => true

/-- Whitespace characters recognised by the JavaScript `trim` model. -/
def isJsWs (c : Char) : Bool :=
  c = ' ' || c = '\t' || c = '\n' || c = '\r' || c = '\x0b' || c = '\x0c'

/-- Model of JavaScript `String.prototype.trim` (`script.js:79`): drop leading
and trailing whitespace.  Defined char-wise so the kernel can evaluate it. -/
def jsTrim (s : String) : String :=
  String.mk (((s.data.dropWhile isJsWs).reverse.dropWhile isJsWs).reverse)

/-- Model of JavaScript `s.substring(0, n)` (`script.js:116,126`): the first
`n` characters of `s`. -/
def jsSubstringTo (s : String) (n : Nat) : String :=
  String.mk (s.data.take n)

/-- Skip JSON whitespace at the front of the input. -/
def skipWs : List Char → List Char
  | [] => []
  | c :: cs => if isJsWs c then skipWs cs else c :: cs

/-- Parse a maximal run of decimal digits into a natural number. -/
def parseDigits (cs : List Char) : Option (Nat × List Char) :=
  let ds := cs.takeWhile Char.isDigit
  if ds.isEmpty then none
  else some (ds.foldl (fun n c => n * 10 + (c.toNat - 48)) 0, cs.dropWhile Char.isDigit)

/-- Parse the body of a JSON string after the opening quote, handling the
single-character escape sequences.  (Unicode `\u` escapes are not modelled;
no claim depends on them.) -/
def parseStringBody : List Char → Option (List Char × List Char)
  | [] => none
  | '"' :: rest => some ([], rest)
  | '\\' :: e :: rest =>
    let dec : Option Char :=
      if e = '"' then some '"'
      else if e = '\\' then some '\\'
      else if e = '/' then some '/'
      else if e = 'n' then some '\n'
      else if e = 't' then some '\t'
      else if e = 'r' then some '\r'
      else if e = 'b' then some (Char.ofNat 8)
      else if e = 'f' then some (Char.ofNat 12)
      else none
    match dec with
    | some c => (parseStringBody rest).map (fun p => (c :: p.1, p.2))
    | none => none
  | c :: rest => (parseStringBody rest).map (fun p => (c :: p.1, p.2))

mutual

/-- Fuel-bounded recursive-descent parser for a JSON value, modelling the
platform `JSON.parse` used on `script.js:10`.  Returns the parsed value and
the unconsumed input, or `none` on a syntax error. -/
def parseVal : Nat → List Char → Option (Json × List Char)
  | 0, _ => none
  | fuel + 1, cs =>
    match skipWs cs with
    | 'n' :: 'u' :: 'l' :: 'l' :: rest => some (.null, rest)
    | 't' :: 'r' :: 'u' :: 'e' :: rest => some (.bool true, rest)
    | 'f' :: 'a' :: 'l' :: 's' :: 'e' :: rest => some (.bool false, rest)
    | '"' :: rest => (parseStringBody rest).map (fun p => (.str (String.mk p.1), p.2))
    | '-' :: rest => (parseDigits rest).map (fun p => (.num (-(p.1 : Int)), p.2))
    | '[' :: rest =>
      match skipWs rest with
      | ']' :: rest2 => some (.arr [], rest2)
      | rest2 => parseArrItems fuel rest2
    | '\x7b' :: rest =>
      match skipWs rest with
      | '\x7d' :: rest2 => some (.obj [], rest2)
      | rest2 => parseObjItems fuel rest2
    | c :: rest =>
      if c.isDigit then (parseDigits (c :: rest)).map (fun p => (.num (p.1 : Int), p.2))
      else none
    | [] => none

/-- Parse the comma-separated items of a non-empty JSON array up to the
closing bracket. -/
def parseArrItems : Nat → List Char → Option (Json × List Char)
  | 0, _ => none
  | fuel + 1, cs =>
    match parseVal fuel cs with
    | none => none
    | some (v, rest) =>
      match skipWs rest with
      | ',' :: rest2 =>
        match parseArrItems fuel rest2 with
        | some (.arr xs, rest3) => some (.arr (v :: xs), rest3)
        | _ => none
      | ']' :: rest2 => some (.arr [v], rest2)
      | _ => none

/-- Parse the comma-separated members of a non-empty JSON object up to the
closing brace. -/
def parseObjItems : Nat → List Char → Option (Json × List Char)
  | 0, _ => none
  | fuel + 1, cs =>
    match skipWs cs with
    | '"' :: rest =>
      match parseStringBody rest with
      | none => none
      | some (key, rest2) =>
        match skipWs rest2 with
        | ':' :: rest3 =>
          match parseVal fuel rest3 with
          | none => none
          | some (v, rest4) =>
            match skipWs rest4 with
            | ',' :: rest5 =>
              match parseObjItems fuel rest5 with
              | some (.obj fs, rest6) => some (.obj ((String.mk key, v) :: fs), rest6)
              | _ => none
            | '\x7d' :: rest5 => some (.obj [(String.mk key, v)], rest5)
            | _ => none
        | _ => none
    | _ => none

end

/-- Model of the platform `JSON.parse` on a whole document: `Except.error ()`
models the thrown `SyntaxError` (which `script.js:10` does not catch). -/
def jsonParse (s : String) : Except Unit Json :=
  match parseVal (s.length + 1) s.data with
  | some (v, rest) => if skipWs rest = [] then .ok v else .error ()
  | none => .error ()

/-- Model of `script.js:10`,
`let tasks = JSON.parse(localStorage.getItem('tasks')) || []`.
`stored` is the raw string under the `tasks` key (`none` if absent;
`JSON.parse(null)` coerces the argument to the string `"null"`).  A parse
failure propagates as an uncaught exception; a falsy parse result is replaced
by the empty array by `|| []`; any truthy result is kept as-is. -/
def loadTasks (stored : Option String) : Except Unit Json :=
  match jsonParse (stored.getD "null") with
  | .error e => .error e
  | .ok v => .ok (if v.truthy then v else .arr [])

/-- Serialization of one task, the tree-level view of what
`JSON.stringify` produces for a task object (`script.js:176,202`): an object
with the four fields in insertion order. -/
def taskToJson (t : Task) : Json :=
  .obj [("id", .num t.id), ("text", .str t.text),
        ("completed", .bool t.completed), ("createdAt", .str t.createdAt)]

/-- Tree-level model of `JSON.stringify(tasks)`: a JSON array of the
serialized tasks.  The platform guarantees that printing this tree and
re-parsing the text is the identity, so round-trip claims are settled at the
tree level. -/
def tasksToJson (l : List Task) : Json :=
  .arr (l.map taskToJson)

/-- Decode one JSON value back into a task, requiring exactly the four fields
`id`, `text`, `completed`, `createdAt` with their expected types. -/
def jsonToTask : Json → Option Task
  | .obj [("id", .num n), ("text", .str tx), ("completed", .bool b), ("createdAt", .str c)] =>
    if 0 ≤ n then some ⟨n.toNat, tx, b, c⟩ else none
  | _ => none

/-- Decode a list of JSON values into tasks, failing if any element fails. -/
def decodeAll : List Json → Option (List Task)
  | [] => some []
  | j :: js =>
    match jsonToTask j, decodeAll js with
    | some t, some ts => some (t :: ts)
    | _, _ => none

/-- Decode a JSON document into a task list: it must be an array of task
objects. -/
def jsonToTasks : Json → Option (List Task)
  | .arr xs => decodeAll xs
  | _ => none

/-- A transient message passed to `showNotification` (`script.js:357`):
message text, kind (`success`, `error`, `warning`, `info`) and duration in
milliseconds (default 3000). -/
structure Notification where
  message : String
  kind : String
  duration : Nat
deriving DecidableEq

/-- The mutable application state: the in-memory `tasks` array and the JSON
document currently stored under the `tasks` key of `localStorage` (tree-level,
`none` when the key is absent). -/
structure AppState where
  tasks : List Task
  storage : Option Json

/-- Model of `persistTasks` (`script.js:200-207`): write
`JSON.stringify(tasks)` under the `tasks` key.  The success path is modelled;
a quota failure only notifies and is irrelevant to the claims below. -/
def persistTasks (st : AppState) : AppState :=
  { st with storage := some (tasksToJson st.tasks) }

/-- Model of `handleAddTask` (`script.js:78-117`).  `input` is the raw text
field value, `now` the value of `Date.now()`, `createdAt` the value of
`new Date().toLocaleString()`.  Returns the new state and the notification
shown. -/
def handleAddTask (input : String) (now : Nat) (createdAt : String)
    (st : AppState) : AppState × Notification :=
  let taskText := jsTrim input
  if taskText = "" then
    (st, ⟨"Please enter a task! 📝", "warning", 3000⟩)
  else if taskText.length > 150 then
    (st, ⟨"Task is too long! Keep it under 150 characters. ✏️", "warning", 3000⟩)
  else
    (persistTasks { st with tasks := st.tasks ++ [⟨now, taskText, false, createdAt⟩] },
     ⟨"Task added successfully! ✨ \"" ++ jsSubstringTo taskText 30 ++ "...\"", "success", 3000⟩)

/-- Result of a delete trigger: the state afterwards, the text of the
blocking `confirm` prompt, and the notification shown (if any). -/
structure DeleteResult where
  state : AppState
  prompt : String
  notif : Option Notification

/-- Model of `handleDeleteTask` (`script.js:123-141`).  `confirmed` is the
user's answer to the `confirm` prompt.  Note the filter runs and the list is
re-persisted whether or not `taskId` is present. -/
def handleDeleteTask (taskId : Nat) (confirmed : Bool) (st : AppState) : DeleteResult :=
  let found := st.tasks.find? (fun t => t.id == taskId)
  let taskText := match found with
    | some t => jsSubstringTo t.text 30
    | none => "Task"
  let prompt := "Delete \"" ++ taskText ++ (if taskText.length > 30 then "..." else "") ++
    "\"? This cannot be undone."
  if confirmed then
    ⟨persistTasks { st with tasks := st.tasks.filter (fun t => t.id != taskId) },
     prompt, some ⟨"Task deleted! 🗑️", "success", 2000⟩⟩
  else
    ⟨st, prompt, none⟩

/-- In-place flip of `completed` on the task found by
`tasks.find(task => task.id === taskId)` (`script.js:148-152`): `find`
returns the first match and the assignment mutates that element. -/
def toggleFirst (taskId : Nat) : List Task → List Task
  | [] => []
  | t :: ts =>
    if t.id = taskId then { t with completed := !t.completed } :: ts
    else t :: toggleFirst taskId ts

/-- Model of `handleToggleComplete` (`script.js:147-164`).  When the id is
absent nothing happens (no persist, no notification).  The celebratory emoji
is drawn pseudo-randomly from five variants; the first variant stands in for
it, as no claim concerns the emoji choice. -/
def handleToggleComplete (taskId : Nat) (st : AppState) : AppState × Option Notification :=
  match st.tasks.find? (fun t => t.id == taskId) with
  | none => (st, none)
  | some task =>
    (persistTasks { st with tasks := toggleFirst taskId st.tasks },
     if !task.completed then some ⟨"Great job! You crushed it! 🎉", "success", 2000⟩
     else some ⟨"Task marked as incomplete ↩️", "info", 1500⟩)

/-- Result of an export trigger: the downloaded JSON document (tree-level,
`none` when no download is triggered) and the notification shown. -/
structure ExportResult where
  download : Option Json
  notif : Notification

/-- Model of `handleExportTasks` (`script.js:169-191`): an empty list aborts
with a warning and no download; otherwise the serialized list is downloaded
and a success notification names the task count. -/
def handleExportTasks (l : List Task) : ExportResult :=
  if l.length = 0 then
    ⟨none, ⟨"No tasks to export! Add some tasks first. 📝", "warning", 3000⟩⟩
  else
    ⟨some (tasksToJson l),
     ⟨"Exported " ++ toString l.length ++ " task" ++ (if l.length != 1 then "s" else "") ++
        " successfully! 📥", "success", 3000⟩⟩

/-- Replacement for a single character performed by
`text.replace(/[&<>"']/g, ...)` with the `htmlEscapeMap` of
`script.js:339-349`. -/
def escChar (c : Char) : List Char :=
  if c = '&' then "&amp;".data
  else if c = '<' then "&lt;".data
  else if c = '>' then "&gt;".data
  else if c = '"' then "&quot;".data
  else if c = '\'' then "&#039;".data
  else [c]

/-- Character-list version of `escapeHtml`. -/
def escList : List Char → List Char
  | [] => []
  | c :: cs => escChar c ++ escList cs

/-- Model of `escapeHtml` (`script.js:339-349`): every occurrence of one of
the five HTML-special characters is replaced by its entity. -/
def escapeHtml (s : String) : String :=
  String.mk (escList s.data)

/-- Fuel-bounded worker for `unescList`; the fuel makes the recursion
structural so the kernel can evaluate it. -/
def unescGo : Nat → List Char → List Char
  | 0, l => l
  | _ + 1, [] => []
  | fuel + 1, c :: rest =>
    if c = '&' then
      if rest.take 4 = ['a', 'm', 'p', ';'] then '&' :: unescGo fuel (rest.drop 4)
      else if rest.take 3 = ['l', 't', ';'] then '<' :: unescGo fuel (rest.drop 3)
      else if rest.take 3 = ['g', 't', ';'] then '>' :: unescGo fuel (rest.drop 3)
      else if rest.take 5 = ['q', 'u', 'o', 't', ';'] then '"' :: unescGo fuel (rest.drop 5)
      else if rest.take 5 = ['#', '0', '3', '9', ';'] then '\'' :: unescGo fuel (rest.drop 5)
      else c :: unescGo fuel rest
    else c :: unescGo fuel rest

/-- HTML entity decoder for the five entities produced by `escapeHtml`: the
inverse used to state that escaping replaces each special character by its
own entity and loses no information. -/
def unescList (l : List Char) : List Char := unescGo l.length l

/-- The data of one rendered task row built by `createTaskElement`
(`script.js:247-272`): the class list of the `li`, the checkbox state, the
HTML placed inside the `task-text` span, and the ids wired to the toggle and
delete handlers. -/
structure TaskElement where
  className : String
  checkboxChecked : Bool
  taskText : String
  toggleTargetId : Nat
  deleteTargetId : Nat

/-- Model of `createTaskElement` (`script.js:247-272`). -/
def createTaskElement (t : Task) : TaskElement :=
  ⟨"task-item " ++ (if t.completed then "completed" else ""),
   t.completed, escapeHtml t.text, t.id, t.id⟩

/-- One user-triggered mutation of the task list, for reasoning about
operation sequences: an add trigger (with the raw input, the current
`Date.now()` and the `createdAt` string), a delete trigger (with the user's
answer to the confirm prompt), or a toggle trigger. -/
inductive Op where
  | add (input : String) (now : Nat) (createdAt : String)
  | remove (id : Nat) (confirmed : Bool)
  | toggle (id : Nat)

/-- Apply one operation to the application state. -/
def applyOp (st : AppState) : Op → AppState
  | .add input now c => (handleAddTask input now c st).1
  | .remove i conf => (handleDeleteTask i conf st).state
  | .toggle i => (handleToggleComplete i st).1

/-- Run a sequence of operations from a starting state. -/
def runOps (st : AppState) : List Op → AppState
  | [] => st
  | op :: ops => runOps (applyOp st op) ops

/-- The `Date.now()` values of the add operations in a sequence. -/
def addTimes : List Op → List Nat
  | [] => []
  | .add _ now _ :: ops => now :: addTimes ops
  | _ :: ops => addTimes ops

/-! ## Helper lemmas -/

theorem unescGo_escList (l : List Char) : ∀ fuel, (escList l).length ≤ fuel →
    unescGo fuel (escList l) = l := by
  induction l with
  | nil =>
    intro fuel _
    cases fuel <;> rfl
  | cons c cs ih =>
    intro fuel hf
    by_cases h1 : c = '&'
    · subst h1
      simp [escList, escChar] at hf ⊢
      cases fuel with
      | zero => omega
      | succ f =>
        simp [unescGo]
        exact ih f (by omega)
    · by_cases h2 : c = '<'
      · subst h2
        simp [escList, escChar] at hf ⊢
        cases fuel with
        | zero => omega
        | succ f =>
          simp [unescGo]
          exact ih f (by omega)
      · by_cases h3 : c = '>'
        · subst h3
          simp [escList, escChar] at hf ⊢
          cases fuel with
          | zero => omega
          | succ f =>
            simp [unescGo]
            exact ih f (by omega)
        · by_cases h4 : c = '"'
          · subst h4
            simp [escList, escChar] at hf ⊢
            cases fuel with
            | zero => omega
            | succ f =>
              simp [unescGo]
              exact ih f (by omega)
          · by_cases h5 : c = '\''
            · subst h5
              simp [escList, escChar] at hf ⊢
              cases fuel with
              | zero => omega
              | succ f =>
                simp [unescGo]
                exact ih f (by omega)
            · simp [escList, escChar, h1, h2, h3, h4, h5] at hf ⊢
              cases fuel with
              | zero => omega
              | succ f =>
                simp [unescGo, h1]
                exact ih f (by omega)

theorem escList_no_raw (l : List Char) :
    ∀ c ∈ escList l, c ≠ '<' ∧ c ≠ '>' ∧ c ≠ '"' ∧ c ≠ '\'' := by
  induction l with
  | nil => intro c hc; simp [escList] at hc
  | cons a as ih =>
    intro c hc
    simp only [escList, List.mem_append] at hc
    rcases hc with hc | hc
    · by_cases h1 : a = '&'
      · subst h1; simp [escChar] at hc; rcases hc with h | h | h | h | h <;> subst h <;> decide
      · by_cases h2 : a = '<'
        · subst h2; simp [escChar] at hc; rcases hc with h | h | h | h <;> subst h <;> decide
        · by_cases h3 : a = '>'
          · subst h3; simp [escChar] at hc; rcases hc with h | h | h | h <;> subst h <;> decide
          · by_cases h4 : a = '"'
            · subst h4; simp [escChar] at hc
              rcases hc with h | h | h | h | h | h <;> subst h <;> decide
            · by_cases h5 : a = '\''
              · subst h5; simp [escChar] at hc
                rcases hc with h | h | h | h | h | h <;> subst h <;> decide
              · simp [escChar, h1, h2, h3, h4, h5] at hc
                subst hc
                exact ⟨h2, h3, h4, h5⟩
    · exact ih c hc

/-! ## Claims -/

/-- Claim C5: for every task, the text placed in that task's rendered row has
every occurrence of the five HTML-special characters `& < > " '` replaced by
its HTML entity: none of `< > " '` occurs raw in the rendered text, and
decoding the five entities recovers exactly the original task text (so every
`&` in the rendered text is the start of an entity standing for an original
character). -/
theorem createTaskElement_text_escaped (t : Task) :
    (∀ c ∈ ((createTaskElement t).taskText).data,
      c ≠ '<' ∧ c ≠ '>' ∧ c ≠ '"' ∧ c ≠ '\'') ∧
    unescList ((createTaskElement t).taskText).data = t.text.data :=
  ⟨escList_no_raw t.text.data, unescGo_escList t.text.data _ le_rfl⟩

/-- Witness for C5 at a task whose text contains all five special
characters. -/
theorem createTaskElement_text_escaped_witness :
    ('b' ≠ '<' ∧ 'b' ≠ '>' ∧ 'b' ≠ '"' ∧ 'b' ≠ '\'') ∧
    unescList ((createTaskElement ⟨1, "<b>&'\"", false, "d"⟩).taskText).data =
      ("<b>&'\"" : String).data :=
  ⟨(createTaskElement_text_escaped ⟨1, "<b>&'\"", false, "d"⟩).1 'b' (by decide),
   (createTaskElement_text_escaped ⟨1, "<b>&'\"", false, "d"⟩).2⟩

/-- Claim C9: when the trimmed input is empty (empty or whitespace-only
input), the add trigger leaves the state unchanged (task list and storage),
persists nothing, and shows the validation warning. -/
theorem handleAddTask_empty_input (input : String) (now : Nat) (createdAt : String)
    (st : AppState) (h : jsTrim input = "") :
    handleAddTask input now createdAt st =
      (st, ⟨"Please enter a task! 📝", "warning", 3000⟩) := by
  simp [handleAddTask, h]

/-- Witness for C9 at a whitespace-only input. -/
theorem handleAddTask_empty_input_witness :
    handleAddTask "   " 1 "d" ⟨[], none⟩ =
      (⟨[], none⟩, ⟨"Please enter a task! 📝", "warning", 3000⟩) :=
  handleAddTask_empty_input "   " 1 "d" ⟨[], none⟩ (by decide)

/-- Counterexample to claim C1 as stated: the stored value `"5"` parses as
valid JSON but not as an array, yet `load()` does not yield the empty list
(the truthy value `5` is kept as the task "list"); and the stored value `"["`
is not valid JSON and surfaces as an uncaught exception rather than being
silently discarded. -/
theorem loadTasks_claim_counterexample :
    loadTasks (some "5") ≠ Except.ok (Json.arr []) ∧
    loadTasks (some "[") = Except.error () := by
  constructor
  · intro h
    have h1 : loadTasks (some "5") = Except.ok (Json.num 5) := rfl
    rw [h1] at h
    injection h with h2
    exact Json.noConfusion h2
  · rfl

/-- Claim C1 amended: `load()` yields the empty list when the key is absent
or when the stored value parses to a falsy JSON value (`null`, `false`, `0`,
`""`); a stored value that is not valid JSON raises an uncaught exception (a
crash, not silent discard); and a stored value parsing to any truthy value —
array or not — is used as-is. -/
theorem loadTasks_amended :
    loadTasks none = Except.ok (Json.arr []) ∧
    (∀ s v, jsonParse s = Except.ok v → v.truthy = false →
      loadTasks (some s) = Except.ok (Json.arr [])) ∧
    (∀ s v, jsonParse s = Except.ok v → v.truthy = true →
      loadTasks (some s) = Except.ok v) ∧
    (∀ s, jsonParse s = Except.error () → loadTasks (some s) = Except.error ()) := by
  refine ⟨rfl, ?_, ?_, ?_⟩
  · intro s v hp ht
    simp [loadTasks, hp, ht]
  · intro s v hp ht
    simp [loadTasks, hp, ht]
  · intro s hp
    simp [loadTasks, hp]

/-- Witness for the amended C1 at a falsy stored value, a truthy non-array
round-trip value, and a corrupt stored value. -/
theorem loadTasks_amended_witness :
    loadTasks (some "0") = Except.ok (Json.arr []) ∧
    loadTasks (some "[1]") = Except.ok (Json.arr [Json.num 1]) ∧
    loadTasks (some "nope") = Except.error () :=
  ⟨loadTasks_amended.2.1 "0" (Json.num 0) rfl rfl,
   loadTasks_amended.2.2.1 "[1]" (Json.arr [Json.num 1]) rfl rfl,
   loadTasks_amended.2.2.2 "nope" rfl⟩

/-- Claim C3: an input whose trimmed text has length exactly 150 is accepted —
the task (trimmed text, `completed = false`) is appended to the end of the
list and the new list is persisted — while an input whose trimmed text has
length 151 or more is rejected with a validation warning and the state is
unchanged. -/
theorem handleAddTask_length_boundary (input : String) (now : Nat) (createdAt : String)
    (st : AppState) :
    ((jsTrim input).length = 150 →
      handleAddTask input now createdAt st =
        (⟨st.tasks ++ [⟨now, jsTrim input, false, createdAt⟩],
          some (tasksToJson (st.tasks ++ [⟨now, jsTrim input, false, createdAt⟩]))⟩,
         ⟨"Task added successfully! ✨ \"" ++ jsSubstringTo (jsTrim input) 30 ++ "...\"",
          "success", 3000⟩)) ∧
    (150 < (jsTrim input).length →
      handleAddTask input now createdAt st =
        (st, ⟨"Task is too long! Keep it under 150 characters. ✏️", "warning", 3000⟩)) := by
  constructor
  · intro h
    have hne : jsTrim input ≠ "" := by
      intro he
      rw [he] at h
      simp at h
    have hle : ¬ ((jsTrim input).length > 150) := by omega
    simp [handleAddTask, hne, hle, persistTasks]
  · intro h
    have hne : jsTrim input ≠ "" := by
      intro he
      rw [he] at h
      simp at h
    simp [handleAddTask, hne, h]

/-- Witness for C3 at inputs of 150 and 151 repeated characters. -/
theorem handleAddTask_length_boundary_witness :
    (handleAddTask (String.mk (List.replicate 150 'a')) 1 "d" ⟨[], none⟩).1.tasks =
      [⟨1, String.mk (List.replicate 150 'a'), false, "d"⟩] ∧
    (handleAddTask (String.mk (List.replicate 151 'a')) 1 "d" ⟨[], none⟩).2 =
      ⟨"Task is too long! Keep it under 150 characters. ✏️", "warning", 3000⟩ := by
  have h1 := (handleAddTask_length_boundary (String.mk (List.replicate 150 'a')) 1 "d"
    ⟨[], none⟩).1 (by decide)
  have h2 := (handleAddTask_length_boundary (String.mk (List.replicate 151 'a')) 1 "d"
    ⟨[], none⟩).2 (by decide)
  rw [h1, h2]
  exact ⟨by decide, rfl⟩

theorem jsonToTask_taskToJson (t : Task) : jsonToTask (taskToJson t) = some t := by
  simp [taskToJson, jsonToTask, Int.toNat_natCast]

theorem decodeAll_map_taskToJson (l : List Task) :
    decodeAll (l.map taskToJson) = some l := by
  induction l with
  | nil => rfl
  | cons t ts ih => simp [decodeAll, jsonToTask_taskToJson, ih]

/-- Claim C4: exporting an empty list fails with a warning notification and
triggers no download; exporting a non-empty list downloads a JSON array whose
length equals the list length and whose elements — each carrying all four
fields — decode back to exactly the exported list. -/
theorem handleExportTasks_spec (l : List Task) :
    (l = [] → handleExportTasks l =
      ⟨none, ⟨"No tasks to export! Add some tasks first. 📝", "warning", 3000⟩⟩) ∧
    (l ≠ [] → ∃ xs : List Json,
      (handleExportTasks l).download = some (Json.arr xs) ∧
      xs.length = l.length ∧
      jsonToTasks (Json.arr xs) = some l) := by
  constructor
  · intro h
    subst h
    rfl
  · intro h
    have hlen : l.length ≠ 0 := by simpa using h
    refine ⟨l.map taskToJson, ?_, by simp, ?_⟩
    · simp [handleExportTasks, tasksToJson, hlen]
    · simpa [jsonToTasks] using decodeAll_map_taskToJson l

/-- Witness for C4 at the empty list and a one-element list. -/
theorem handleExportTasks_spec_witness :
    handleExportTasks [] =
      ⟨none, ⟨"No tasks to export! Add some tasks first. 📝", "warning", 3000⟩⟩ ∧
    ∃ xs : List Json,
      (handleExportTasks [⟨1, "a", false, "d"⟩]).download = some (Json.arr xs) ∧
      xs.length = ([⟨1, "a", false, "d"⟩] : List Task).length ∧
      jsonToTasks (Json.arr xs) = some [⟨1, "a", false, "d"⟩] :=
  ⟨(handleExportTasks_spec []).1 rfl,
   (handleExportTasks_spec [⟨1, "a", false, "d"⟩]).2 (by decide)⟩

/-- Claim C6: deleting an id that is not in the list is a no-op: whatever the
user answers to the prompt, the in-memory list and the stored value end up
exactly as they were before the call (assuming storage was in sync with the
list, as it is after any successful persist). -/
theorem handleDeleteTask_absent_noop (taskId : Nat) (confirmed : Bool) (st : AppState)
    (hid : taskId ∉ st.tasks.map Task.id)
    (hsync : st.storage = some (tasksToJson st.tasks)) :
    (handleDeleteTask taskId confirmed st).state = st := by
  have hne : ∀ t ∈ st.tasks, t.id ≠ taskId := fun t ht he =>
    hid (List.mem_map.mpr ⟨t, ht, he⟩)
  have hfilter : st.tasks.filter (fun t => t.id != taskId) = st.tasks :=
    List.filter_eq_self.mpr (fun t ht => by simpa [bne_iff_ne] using hne t ht)
  cases confirmed with
  | false => rfl
  | true =>
    obtain ⟨ts, sto⟩ := st
    simp [handleDeleteTask, persistTasks, hfilter]
    exact hsync.symm

/-- Witness for C6: deleting id 99 from a one-task list with in-sync
storage. -/
theorem handleDeleteTask_absent_noop_witness :
    (handleDeleteTask 99 true ⟨[⟨1, "a", false, "d"⟩],
        some (tasksToJson [⟨1, "a", false, "d"⟩])⟩).state =
      ⟨[⟨1, "a", false, "d"⟩], some (tasksToJson [⟨1, "a", false, "d"⟩])⟩ :=
  handleDeleteTask_absent_noop 99 true
    ⟨[⟨1, "a", false, "d"⟩], some (tasksToJson [⟨1, "a", false, "d"⟩])⟩ (by decide) rfl

/-- Claim C10: when the delete trigger is invoked with an id not in the list,
the confirmation prompt is still shown with the placeholder text `Task`, and
on confirmation the unchanged list is re-persisted and the `Task deleted!`
success notification is shown even though nothing was removed. -/
theorem handleDeleteTask_absent_confirmed (taskId : Nat) (st : AppState)
    (hid : taskId ∉ st.tasks.map Task.id) :
    (handleDeleteTask taskId true st).prompt = "Delete \"Task\"? This cannot be undone." ∧
    (handleDeleteTask taskId true st).state.tasks = st.tasks ∧
    (handleDeleteTask taskId true st).state.storage = some (tasksToJson st.tasks) ∧
    (handleDeleteTask taskId true st).notif =
      some ⟨"Task deleted! 🗑️", "success", 2000⟩ := by
  have hne : ∀ t ∈ st.tasks, t.id ≠ taskId := fun t ht he =>
    hid (List.mem_map.mpr ⟨t, ht, he⟩)
  have hfind : st.tasks.find? (fun t => t.id == taskId) = none :=
    List.find?_eq_none.mpr (fun t ht => by simpa using hne t ht)
  have hfilter : st.tasks.filter (fun t => t.id != taskId) = st.tasks :=
    List.filter_eq_self.mpr (fun t ht => by simpa [bne_iff_ne] using hne t ht)
  refine ⟨?_, ?_, ?_, ?_⟩
  · simp [handleDeleteTask, hfind]
    decide
  · simp [handleDeleteTask, persistTasks, hfilter]
  · simp [handleDeleteTask, persistTasks, hfilter]
  · simp [handleDeleteTask]

/-- Witness for C10: deleting absent id 99 from a one-task list. -/
theorem handleDeleteTask_absent_confirmed_witness :
    (handleDeleteTask 99 true ⟨[⟨1, "a", false, "d"⟩], none⟩).prompt =
      "Delete \"Task\"? This cannot be undone." ∧
    (handleDeleteTask 99 true ⟨[⟨1, "a", false, "d"⟩], none⟩).state.tasks =
      [⟨1, "a", false, "d"⟩] ∧
    (handleDeleteTask 99 true ⟨[⟨1, "a", false, "d"⟩], none⟩).state.storage =
      some (tasksToJson [⟨1, "a", false, "d"⟩]) ∧
    (handleDeleteTask 99 true ⟨[⟨1, "a", false, "d"⟩], none⟩).notif =
      some ⟨"Task deleted! 🗑️", "success", 2000⟩ :=
  handleDeleteTask_absent_confirmed 99 ⟨[⟨1, "a", false, "d"⟩], none⟩ (by decide)

theorem toggleFirst_map_id (taskId : Nat) (l : List Task) :
    (toggleFirst taskId l).map Task.id = l.map Task.id := by
  induction l with
  | nil => rfl
  | cons t ts ih =>
    by_cases h : t.id = taskId
    · simp [toggleFirst, h]
    · simp [toggleFirst, h, ih]

theorem toggleFirst_toggleFirst (taskId : Nat) (l : List Task) :
    toggleFirst taskId (toggleFirst taskId l) = l := by
  induction l with
  | nil => rfl
  | cons t ts ih =>
    by_cases h : t.id = taskId
    · subst h
      simp [toggleFirst]
    · simp [toggleFirst, h, ih]

theorem find?_isSome_of_mem_map (taskId : Nat) (l : List Task)
    (h : taskId ∈ l.map Task.id) :
    ∃ t, l.find? (fun t => t.id == taskId) = some t := by
  obtain ⟨t, ht, hid⟩ := List.mem_map.mp h
  have hs : (l.find? (fun t => t.id == taskId)).isSome :=
    List.find?_isSome.mpr ⟨t, ht, by simpa using hid⟩
  exact Option.isSome_iff_exists.mp hs

theorem handleToggleComplete_tasks_of_mem (taskId : Nat) (st : AppState)
    (h : taskId ∈ st.tasks.map Task.id) :
    (handleToggleComplete taskId st).1.tasks = toggleFirst taskId st.tasks := by
  obtain ⟨t, hfind⟩ := find?_isSome_of_mem_map taskId st.tasks h
  simp [handleToggleComplete, hfind, persistTasks]

/-- Claim C7: for an id present in the list, toggling it twice in succession
restores the whole task list — in particular that task's `completed` field —
to its original value. -/
theorem handleToggleComplete_involutive (taskId : Nat) (st : AppState)
    (h : taskId ∈ st.tasks.map Task.id) :
    (handleToggleComplete taskId (handleToggleComplete taskId st).1).1.tasks = st.tasks := by
  have h1 := handleToggleComplete_tasks_of_mem taskId st h
  have h2 : taskId ∈ ((handleToggleComplete taskId st).1.tasks).map Task.id := by
    rw [h1, toggleFirst_map_id]
    exact h
  rw [handleToggleComplete_tasks_of_mem taskId _ h2, h1, toggleFirst_toggleFirst]

/-- Witness for C7: toggling task 1 twice from a one-task list. -/
theorem handleToggleComplete_involutive_witness :
    (handleToggleComplete 1
        (handleToggleComplete 1 ⟨[⟨1, "a", false, "d"⟩], none⟩).1).1.tasks =
      [⟨1, "a", false, "d"⟩] :=
  handleToggleComplete_involutive 1 ⟨[⟨1, "a", false, "d"⟩], none⟩ (by decide)

theorem toggleFirst_decomp (taskId : Nat) :
    ∀ l : List Task, taskId ∈ l.map Task.id →
    ∃ pre t t2 post,
      l = pre ++ t :: post ∧
      (∀ u ∈ pre, u.id ≠ taskId) ∧
      t.id = taskId ∧
      toggleFirst taskId l = pre ++ t2 :: post ∧
      t2.id = t.id ∧ t2.text = t.text ∧ t2.createdAt = t.createdAt ∧
      t2.completed = !t.completed
  | [], h => by simp at h
  | a :: as, h => by
    by_cases ha : a.id = taskId
    · exact ⟨[], a, { a with completed := !a.completed }, as, by simp, by simp, ha,
        by simp [toggleFirst, ha], rfl, rfl, rfl, rfl⟩
    · have h2 : taskId ∈ as.map Task.id := by
        simp only [List.map_cons, List.mem_cons] at h
        rcases h with h | h
        · exact absurd h.symm ha
        · exact h
      obtain ⟨pre, t, t2, post, hdecomp, hpre, hid, htog, ht1, ht2, ht3, ht4⟩ :=
        toggleFirst_decomp taskId as h2
      refine ⟨a :: pre, t, t2, post, by simp [hdecomp], ?_, hid,
        by simp [toggleFirst, ha, htog], ht1, ht2, ht3, ht4⟩
      intro u hu
      rcases List.mem_cons.mp hu with h' | h'
      · subst h'
        exact ha
      · exact hpre u h'

/-- Claim C8: for an id present in the list, the toggle changes only the
first task carrying that id, and only its `completed` field (negated); its
`id`, `text` and `createdAt`, every other task, and the order and length of
the list are unchanged. -/
theorem handleToggleComplete_frame (taskId : Nat) (st : AppState)
    (h : taskId ∈ st.tasks.map Task.id) :
    ((handleToggleComplete taskId st).1.tasks).length = st.tasks.length ∧
    ∃ pre t t2 post,
      st.tasks = pre ++ t :: post ∧
      (∀ u ∈ pre, u.id ≠ taskId) ∧
      t.id = taskId ∧
      (handleToggleComplete taskId st).1.tasks = pre ++ t2 :: post ∧
      t2.id = t.id ∧ t2.text = t.text ∧ t2.createdAt = t.createdAt ∧
      t2.completed = !t.completed := by
  have hts := handleToggleComplete_tasks_of_mem taskId st h
  obtain ⟨pre, t, t2, post, hdecomp, hpre, hid, htog, ht1, ht2, ht3, ht4⟩ :=
    toggleFirst_decomp taskId st.tasks h
  constructor
  · have hlen := congrArg List.length (toggleFirst_map_id taskId st.tasks)
    rw [hts]
    simpa using hlen
  · exact ⟨pre, t, t2, post, hdecomp, hpre, hid, by rw [hts]; exact htog,
      ht1, ht2, ht3, ht4⟩

/-- Witness for C8: toggling task 2 in a two-task list. -/
theorem handleToggleComplete_frame_witness :
    ((handleToggleComplete 2 ⟨[⟨1, "a", false, "d"⟩, ⟨2, "b", true, "e"⟩], none⟩).1.tasks).length =
      ([⟨1, "a", false, "d"⟩, ⟨2, "b", true, "e"⟩] : List Task).length ∧
    ∃ pre t t2 post,
      ([⟨1, "a", false, "d"⟩, ⟨2, "b", true, "e"⟩] : List Task) = pre ++ t :: post ∧
      (∀ u ∈ pre, u.id ≠ 2) ∧
      t.id = 2 ∧
      (handleToggleComplete 2 ⟨[⟨1, "a", false, "d"⟩, ⟨2, "b", true, "e"⟩], none⟩).1.tasks =
        pre ++ t2 :: post ∧
      t2.id = t.id ∧ t2.text = t.text ∧ t2.createdAt = t.createdAt ∧
      t2.completed = !t.completed :=
  handleToggleComplete_frame 2 ⟨[⟨1, "a", false, "d"⟩, ⟨2, "b", true, "e"⟩], none⟩ (by decide)

/-- Counterexample to claim C2 as stated: two adds performed at the same
wall-clock millisecond (`Date.now() = 5` for both) yield two tasks with the
same id, violating id uniqueness. -/
theorem runOps_same_ms_id_collision :
    ((runOps ⟨[], none⟩ [Op.add "a" 5 "t", Op.add "b" 5 "t"]).tasks.map Task.id) = [5, 5] ∧
    ¬ ((runOps ⟨[], none⟩ [Op.add "a" 5 "t", Op.add "b" 5 "t"]).tasks.map Task.id).Nodup :=
  ⟨by decide, by decide⟩

theorem runOps_ids_nodup_aux : ∀ (ops : List Op) (st : AppState),
    (st.tasks.map Task.id).Nodup →
    (addTimes ops).Nodup →
    (∀ i ∈ st.tasks.map Task.id, i ∉ addTimes ops) →
    ((runOps st ops).tasks.map Task.id).Nodup
  | [], _, hnd, _, _ => hnd
  | Op.add input now c :: ops, st, hnd, hts, hdisj => by
    rw [show addTimes (Op.add input now c :: ops) = now :: addTimes ops from rfl] at hts
    have hts' := (List.nodup_cons.mp hts).2
    have hnow := (List.nodup_cons.mp hts).1
    have hdisj' : ∀ i ∈ st.tasks.map Task.id, i ∉ addTimes ops := fun i hi hm =>
      hdisj i hi (List.mem_cons_of_mem _ hm)
    have hnotin : now ∉ st.tasks.map Task.id := fun hmem =>
      hdisj now hmem (List.mem_cons_self _ _)
    rw [show runOps st (Op.add input now c :: ops) =
      runOps (applyOp st (Op.add input now c)) ops from rfl]
    by_cases h1 : jsTrim input = ""
    · rw [show applyOp st (Op.add input now c) = st from by simp [applyOp, handleAddTask, h1]]
      exact runOps_ids_nodup_aux ops st hnd hts' hdisj'
    · by_cases h2 : (jsTrim input).length > 150
      · rw [show applyOp st (Op.add input now c) = st from by
          simp [applyOp, handleAddTask, h1, h2]]
        exact runOps_ids_nodup_aux ops st hnd hts' hdisj'
      · have happ : applyOp st (Op.add input now c) =
            persistTasks { st with tasks := st.tasks ++ [⟨now, jsTrim input, false, c⟩] } := by
          simp [applyOp, handleAddTask, h1, h2]
        rw [happ]
        have hmap : ((persistTasks { st with
              tasks := st.tasks ++ [⟨now, jsTrim input, false, c⟩] }).tasks.map Task.id) =
            st.tasks.map Task.id ++ [now] := by
          simp [persistTasks]
        refine runOps_ids_nodup_aux ops _ ?_ hts' ?_
        · rw [hmap]
          exact hnd.append (List.nodup_singleton _)
            (fun a ha hb => by
              rw [List.mem_singleton] at hb
              subst hb
              exact hnotin ha)
        · intro i hi
          rw [hmap] at hi
          rcases List.mem_append.mp hi with hi | hi
          · exact hdisj' i hi
          · rw [List.mem_singleton] at hi
            subst hi
            exact hnow
  | Op.remove rid conf :: ops, st, hnd, hts, hdisj => by
    rw [show addTimes (Op.remove rid conf :: ops) = addTimes ops from rfl] at hts
    have hdisj' : ∀ i ∈ st.tasks.map Task.id, i ∉ addTimes ops := fun i hi =>
      hdisj i hi
    rw [show runOps st (Op.remove rid conf :: ops) =
      runOps (applyOp st (Op.remove rid conf)) ops from rfl]
    have hsub : ((applyOp st (Op.remove rid conf)).tasks.map Task.id).Sublist
        (st.tasks.map Task.id) := by
      cases conf with
      | false => exact List.Sublist.refl _
      | true =>
        simp only [applyOp, handleDeleteTask, if_pos, persistTasks]
        exact (List.filter_sublist _).map Task.id
    refine runOps_ids_nodup_aux ops _ (hsub.nodup hnd) hts ?_
    exact fun i hi => hdisj' i (hsub.subset hi)
  | Op.toggle tid :: ops, st, hnd, hts, hdisj => by
    rw [show addTimes (Op.toggle tid :: ops) = addTimes ops from rfl] at hts
    rw [show runOps st (Op.toggle tid :: ops) =
      runOps (applyOp st (Op.toggle tid)) ops from rfl]
    have hmap : (applyOp st (Op.toggle tid)).tasks.map Task.id = st.tasks.map Task.id := by
      rcases hfind : st.tasks.find? (fun t => t.id == tid) with _ | t
      · simp [applyOp, handleToggleComplete, hfind]
      · simp [applyOp, handleToggleComplete, hfind, persistTasks, toggleFirst_map_id]
    refine runOps_ids_nodup_aux ops _ (by rw [hmap]; exact hnd) hts ?_
    intro i hi
    rw [hmap] at hi
    exact hdisj i hi

/-- Claim C2 amended: for every sequence of add/remove/toggle operations
starting from the empty list, every task remaining in the list has a distinct
`id`, provided the add operations in the sequence carry pairwise-distinct
`Date.now()` timestamps.  (As `runOps_same_ms_id_collision` shows, two adds in
the same millisecond produce the same id, so the proviso is necessary.) -/
theorem runOps_ids_nodup (ops : List Op) (h : (addTimes ops).Nodup) :
    ((runOps ⟨[], none⟩ ops).tasks.map Task.id).Nodup :=
  runOps_ids_nodup_aux ops ⟨[], none⟩ (by simp) h (by simp)

/-- Witness for the amended C2 on a sequence of two adds at distinct times,
a remove and a toggle. -/
theorem runOps_ids_nodup_witness :
    ((runOps ⟨[], none⟩
        [Op.add "a" 5 "t", Op.add "b" 7 "t", Op.remove 5 true, Op.toggle 7]).tasks.map
      Task.id).Nodup :=
  runOps_ids_nodup [Op.add "a" 5 "t", Op.add "b" 7 "t", Op.remove 5 true, Op.toggle 7]
    (by decide)

end TaskFlow
